import Mathlib

/-
Verification development for the twitter-space capture agent.

Shallow embedding of the parts of the repository the properties talk
about: the in-page float-to-int16 quantisation and the bounded audio
backlog (src/audio/audio-capture.js), the websocket transport with its
metadata handshake, best-effort send and reconnection counters
(src/audio/websocket-client.js and the second transport variant in
src/audio/audio-capture.js), the session cleanup sequence
(src/index.js), the space discovery and ranking module
(discoverTwitterSpaces / findMostPopularSpace), and the room join flow
(joinTwitterSpace).  Machine floats are modelled as rationals, the DOM
and network as explicit inputs, and fallible operations as Except.
-/

namespace TwitterSpaceAgent

/-! ## Float-to-int16 conversion (audio-capture.js, startRecording, lines 495-508)

The in-page capture path converts a Float32Array to S16LE with
  const sample = Math.max(-1, Math.min(1, float32Array[i]);
  const int16Sample = Math.floor(sample * 32767);
  s16leBuffer.writeInt16LE(int16Sample, i * 2);
Samples are modelled as rationals. -/

/-- Clamp as written in the source: Math.max(-1, Math.min(1, x)). -/
def clampSample (x : ℚ) : ℚ := max (-1) (min 1 x)

/-- The source's per-sample quantisation: Math.floor(clamped * 32767). -/
def floatToInt16 (x : ℚ) : ℤ := ⌊clampSample x * 32767⌋

/-- Buffer.writeInt16LE: two's-complement 16-bit value, low byte first. -/
def writeInt16LE (v : ℤ) : List ℕ :=
  let u := (v % 65536).toNat
  [u % 256, u / 256]

/-- One sample of the conversion loop: quantise, then serialize little-endian. -/
def convertSample (x : ℚ) : List ℕ := writeInt16LE (floatToInt16 x)

/-- The whole conversion loop over a drained Float32Array. -/
def convertSamples (samples : List ℚ) : List ℕ :=
  (samples.map convertSample).flatten

/-- Clamp written the way the specification words it: clamp(x, -1, 1). -/
def clampSpec (x : ℚ) : ℚ := if x < -1 then -1 else if 1 < x then 1 else x

/-! ## Bounded in-page audio backlog (audio-capture.js, setupAudioCapture, lines 183-194)

  audioBuffer.push(buffer);
  if (audioBuffer.length > 100) { audioBuffer.shift(); }
-/

/-- The fixed backlog depth from the source. -/
def audioBufferLimit : ℕ := 100

/-- The onaudioprocess handler's backlog update: append the new buffer,
then drop the oldest entry when the backlog exceeds the fixed depth. -/
def onaudioprocess (audioBuffer : List (List ℚ)) (buffer : List ℚ) :
    List (List ℚ) :=
  let pushed := audioBuffer ++ [buffer]
  if audioBufferLimit < pushed.length then pushed.tail else pushed

/-! ## Websocket transport (websocket-client.js)

One connection instance is modelled as a state machine over the events
the ws library delivers (open, a send request from the capture loop, a
close with a close code).  The open handler (lines 29-47) sends the
metadata handshake and nothing else sends it; sendAudioChunk
(lines 105-128) only transmits while readyState is OPEN.  Heartbeat and
end control messages are outside the scope of the modelled claims. -/

/-- The message kinds a connection can carry. -/
inductive WsMsg where
  | metadata
  | audioData (chunk : List ℕ)
deriving DecidableEq, Repr

/-- readyState of a ws connection. The library fires the open event at
most once, from the connecting state; the model's open transition is
guarded accordingly. -/
inductive ReadyState where
  | connecting
  | opened
  | closed
deriving DecidableEq, Repr

structure ConnState where
  readyState : ReadyState
  sent : List WsMsg
deriving DecidableEq, Repr

/-- Events delivered to one connection instance. -/
inductive ConnEvent where
  | openEvt
  | sendChunk (chunk : List ℕ)
  | closeEvt (code : ℕ)
deriving DecidableEq, Repr

/-- One step of a connection instance: the open handler sends the
metadata handshake; sendAudioChunk transmits only in the OPEN state;
close just changes state. -/
def stepConn (s : ConnState) (e : ConnEvent) : ConnState :=
  match e with
  | ConnEvent.openEvt =>
      if s.readyState = ReadyState.connecting then
        { readyState := ReadyState.opened, sent := s.sent ++ [WsMsg.metadata] }
      else s
  | ConnEvent.sendChunk c =>
      if s.readyState = ReadyState.opened then
        { s with sent := s.sent ++ [WsMsg.audioData c] }
      else s
  | ConnEvent.closeEvt _ => { s with readyState := ReadyState.closed }

/-- Run one connection instance from its initial (connecting) state. -/
def runConn (es : List ConnEvent) : ConnState :=
  es.foldl stepConn { readyState := ReadyState.connecting, sent := [] }

/-- Number of metadata handshakes in a message trace. -/
def countMetadata : List WsMsg → ℕ
  | [] => 0
  | WsMsg.metadata :: rest => 1 + countMetadata rest
  | WsMsg.audioData _ :: rest => countMetadata rest

/-- What happened to one connection attempt of a whole run: it failed
before opening, or it opened, relayed some chunks and closed with a
code, or it opened and stayed up. -/
inductive ConnOutcome where
  | failBeforeOpen
  | openThenClose (chunks : List (List ℕ)) (code : ℕ)
  | openAndStay (chunks : List (List ℕ))

/-- The ws events one connection attempt delivers. -/
def connEvents : ConnOutcome → List ConnEvent
  | ConnOutcome.failBeforeOpen => []
  | ConnOutcome.openThenClose chunks code =>
      ConnEvent.openEvt :: (chunks.map ConnEvent.sendChunk ++
        [ConnEvent.closeEvt code])
  | ConnOutcome.openAndStay chunks =>
      ConnEvent.openEvt :: chunks.map ConnEvent.sendChunk

/-- The messages one connection attempt sends. -/
def connMessages (o : ConnOutcome) : List WsMsg := (runConn (connEvents o)).sent

/-- MAX_RETRIES from websocket-client.js line 7. -/
def maxRetries : ℕ := 5

/-- A whole run of connectToWebSocket in websocket-client.js over a list
of successive connection outcomes, collecting every message sent.  The
close handler (lines 67-80) reconnects when the close code is not 1000
and connectionRetries < MAX_RETRIES; connectionRetries was reset to 0 at
the start of the current call (line 23), so the comparison sees 0. -/
def sessionTrace : List ConnOutcome → List WsMsg
  | [] => []
  | ConnOutcome.failBeforeOpen :: rest =>
      if 0 < maxRetries then sessionTrace rest else []
  | ConnOutcome.openThenClose chunks code :: rest =>
      connMessages (ConnOutcome.openThenClose chunks code) ++
        (if code ≠ 1000 ∧ 0 < maxRetries then sessionTrace rest else [])
  | ConnOutcome.openAndStay chunks :: _ =>
      connMessages (ConnOutcome.openAndStay chunks)

/-! ## Best-effort send and the capture loop (websocket-client.js
sendAudioChunk, lines 105-128; index.js startRecording callback,
audio-capture.js startRecording data handler)

sendAudioChunk returns false without sending when the connection is
missing or not OPEN; when OPEN it sends and returns true, and a throw
from the underlying ws.send is caught and turned into false.  The
capture loop writes every chunk to the local backup and merely logs a
failed relay send. -/

/-- sendAudioChunk: ws is the connection (none when null), sendOk says
whether the underlying ws.send call succeeds or throws.  The result is
an Except so that an uncaught throw would be visible as an error. -/
def sendAudioChunk (ws : Option ReadyState) (sendOk : Bool) :
    Except String Bool :=
  match ws with
  | none => Except.ok false
  | some rs =>
      if rs = ReadyState.opened then
        if sendOk then Except.ok true else Except.ok false
      else Except.ok false

/-- The recording loop: every produced chunk is appended to the local
backup file and then offered to the relay; the send result only gets
logged. Returns the backup contents and the per-chunk send results. -/
def captureLoop (ws : Option ReadyState) (sendOk : Bool) :
    List (List ℕ) → List (List ℕ) × List Bool
  | [] => ([], [])
  | chunk :: rest =>
      let res := sendAudioChunk ws sendOk
      let tail := captureLoop ws sendOk rest
      (chunk :: tail.1,
        (match res with
         | Except.ok b => b
         | Except.error _ => false) :: tail.2)

/-! ## Reconnection counters (websocket-client.js, audio-capture.js)

websocket-client.js keeps a module-global connectionRetries with bound
MAX_RETRIES = 5, but every call of connectToWebSocket - including the
recursive call made by the retry timer - starts with
`connectionRetries = 0` (line 23).  The second transport variant in
audio-capture.js keeps reconnectAttempt in the enclosing scope with
bound maxReconnectAttempts = 10 and never resets it. -/

/-- Number of websocket constructions connectToWebSocket performs when
the next `failures` attempts all fail with an error event.  Each call
resets the global retry counter to 0 before installing the handlers, so
the error handler's bound check compares 0 against MAX_RETRIES. -/
def connectToWebSocketAttempts : ℕ → ℕ
  | 0 => 1
  | Nat.succ failures =>
      let connectionRetries := 0
      if connectionRetries < maxRetries then
        1 + connectToWebSocketAttempts failures
      else 1

/-- maxReconnectAttempts from audio-capture.js line 290. -/
def maxReconnectAttempts : ℕ := 10

/-- Number of websocket constructions the audio-capture.js transport
variant performs from a current reconnectAttempt value when the next
`failures` connections all close unexpectedly: the close handler
(lines 342-362) reconnects only while reconnectAttempt <
maxReconnectAttempts, and the counter is never reset. -/
def acReconnectAttempts (reconnectAttempt : ℕ) : ℕ → ℕ
  | 0 => 1
  | Nat.succ failures =>
      if reconnectAttempt < maxReconnectAttempts then
        1 + acReconnectAttempts (reconnectAttempt + 1) failures
      else 1

/-! ## Session cleanup (index.js, cleanup, lines 173-202)

The cleanup function runs the four teardown steps inside one try block:
stop audio recording, close the websocket, close the browser, terminate
the provisioned VM; the catch only logs.  Each step runs only when its
resource exists (and the VM step only without --keep-vm / test mode);
any step may throw. -/

inductive CleanupStep where
  | stopAudio
  | closeWs
  | closeBrowser
  | terminateVm
deriving DecidableEq, Repr

/-- The globals cleanup consults. -/
structure CleanupState where
  audioCapture : Bool
  wsConnection : Bool
  browser : Bool
  vmInfo : Bool
  keepVm : Bool
  testMode : Bool
deriving DecidableEq, Repr

/-- Which attempted step throws. -/
structure CleanupFaults where
  stopAudioThrows : Bool
  closeWsThrows : Bool
  closeBrowserThrows : Bool
  terminateVmThrows : Bool
deriving DecidableEq, Repr

/-- The cleanup function: the four guarded steps in source order inside
a single try; the first throw jumps to the catch (which logs and
returns), skipping the remaining steps.  Returns the steps that were
attempted and whether an exception was caught. -/
def cleanup (st : CleanupState) (f : CleanupFaults) :
    List CleanupStep × Bool :=
  let s1 : List CleanupStep :=
    if st.audioCapture then [CleanupStep.stopAudio] else []
  if st.audioCapture && f.stopAudioThrows then (s1, true)
  else
    let s2 := s1 ++ (if st.wsConnection then [CleanupStep.closeWs] else [])
    if st.wsConnection && f.closeWsThrows then (s2, true)
    else
      let s3 := s2 ++ (if st.browser then [CleanupStep.closeBrowser] else [])
      if st.browser && f.closeBrowserThrows then (s3, true)
      else
        let vmStep := st.vmInfo && !st.keepVm && !st.testMode
        let s4 := s3 ++ (if vmStep then [CleanupStep.terminateVm] else [])
        if vmStep && f.terminateVmThrows then (s4, true) else (s4, false)

/-- Teardown order as the specification lists it. -/
def cleanupOrder : List CleanupStep :=
  [CleanupStep.stopAudio, CleanupStep.closeWs, CleanupStep.closeBrowser,
    CleanupStep.terminateVm]

/-- Whether a step is applicable in a given state. -/
def stepApplicable (st : CleanupState) : CleanupStep → Bool
  | CleanupStep.stopAudio => st.audioCapture
  | CleanupStep.closeWs => st.wsConnection
  | CleanupStep.closeBrowser => st.browser
  | CleanupStep.terminateVm => st.vmInfo && !st.keepVm && !st.testMode

/-- Whether a step throws when attempted. -/
def stepThrows (f : CleanupFaults) : CleanupStep → Bool
  | CleanupStep.stopAudio => f.stopAudioThrows
  | CleanupStep.closeWs => f.closeWsThrows
  | CleanupStep.closeBrowser => f.closeBrowserThrows
  | CleanupStep.terminateVm => f.terminateVmThrows

/-- Reference behaviour: the applicable steps in order, cut off just
after the first one that throws. -/
def attemptedUpToFault (applicable throws : CleanupStep → Bool) :
    List CleanupStep → List CleanupStep
  | [] => []
  | s :: rest =>
      if applicable s then
        if throws s then [s]
        else s :: attemptedUpToFault applicable throws rest
      else attemptedUpToFault applicable throws rest

/-- Reference behaviour: whether some applicable step throws before the
sequence ends. -/
def faultReached (applicable throws : CleanupStep → Bool) :
    List CleanupStep → Bool
  | [] => false
  | s :: rest =>
      if applicable s then
        if throws s then true else faultReached applicable throws rest
      else faultReached applicable throws rest

/-! ## String helpers

JavaScript's String.prototype.replace with a string pattern replaces
only the first occurrence, and String.prototype.includes tests for a
substring; both are modelled on the character list of the string. -/

/-- Replace the first occurrence of pat by repl, as JS replace does with
a string pattern. -/
def replaceFirstChars (pat repl : List Char) : List Char → List Char
  | [] => []
  | c :: cs =>
      if pat.isPrefixOf (c :: cs) then repl ++ (c :: cs).drop pat.length
      else c :: replaceFirstChars pat repl cs

/-- JS s.replace(pat, repl) for string patterns. -/
def replaceFirst (s pat repl : String) : String :=
  String.mk (replaceFirstChars pat.toList repl.toList s.toList)

/-- Substring test on character lists. -/
def containsChars (pat : List Char) : List Char → Bool
  | [] => pat.isPrefixOf ([] : List Char)
  | c :: cs => pat.isPrefixOf (c :: cs) || containsChars pat cs

/-- JS s.includes(pat). -/
def strIncludes (s pat : String) : Bool := containsChars pat.toList s.toList

/-- JS s.endsWith(suffix). -/
def endsWithStr (s suffix : String) : Bool :=
  List.isSuffixOf suffix.toList s.toList

/-! ## Space discovery (discoverTwitterSpaces module)

The page scrape yields card-like entries; an entry with no resolvable
spaces link is dropped (the `return null` path of the extraction), the
remainder is truncated to the requested limit, entries with an empty
URL are filtered out and x.com spaces URLs are rewritten to the
twitter.com domain (lines 111-170).  DOM access is abstracted into the
SpaceCard inputs. -/

/-- A discovered room. -/
structure Space where
  url : String
  title : String
  host : String
  listeners : ℕ
deriving DecidableEq, Repr

/-- One card-like entry of the listing page, as the in-page extraction
sees it: an optional spaces link plus the parsed text fields (the
listener count parse defaults to 0 on unparseable text). -/
structure SpaceCard where
  href : Option String
  title : String
  host : String
  listeners : ℕ
deriving DecidableEq, Repr

/-- The per-card extraction: skip the card when it has no spaces URL. -/
def extractSpace (card : SpaceCard) : Option Space :=
  match card.href with
  | none => none
  | some u =>
      some { url := u, title := card.title, host := card.host,
             listeners := card.listeners }

/-- Options of discoverTwitterSpaces; absent fields take the defaults
mode top, empty query, language en, limit 10 (lines 22-25). -/
structure DiscoverOptions where
  mode : Option String
  query : Option String
  language : Option String
  limit : Option ℕ
deriving DecidableEq, Repr

/-- The discovery-site URL normalization (lines 164-170): rewrite
x.com spaces URLs to twitter.com, nothing else. -/
def normalizeDiscoveredUrl (url : String) : String :=
  if strIncludes url "x.com/i/spaces/" then
    replaceFirst url "x.com/i/spaces/" "twitter.com/i/spaces/"
  else url

/-- Whether a string is empty or all whitespace; the source's
url.trim() !== '' filter keeps exactly the URLs on which this is
false. -/
def isBlankStr (s : String) : Bool := s.toList.all Char.isWhitespace

/-- The valid-spaces pipeline of discoverTwitterSpaces (lines 111-170):
extract at most limit cards, drop entries without a URL, drop blank
URLs, normalize the rest. -/
def validSpacesOf (limit : ℕ) (cards : List SpaceCard) : List Space :=
  (((cards.take limit).filterMap extractSpace).filter
      (fun s => !(isBlankStr s.url))).map
    (fun s => { s with url := normalizeDiscoveredUrl s.url })

/-- discoverTwitterSpaces: error when the page shows no spaces at all,
otherwise run the valid-spaces pipeline and error when nothing valid is
left. -/
def discoverTwitterSpaces (options : DiscoverOptions)
    (cards : List SpaceCard) : Except String (List Space) :=
  if cards.isEmpty then
    Except.error "No Twitter Spaces found on spacesdashboard.com"
  else if (validSpacesOf (options.limit.getD 10) cards).isEmpty then
    Except.error "No valid Twitter Spaces found with URLs"
  else Except.ok (validSpacesOf (options.limit.getD 10) cards)

/-- Stable insertion by descending listener count. The source sorts with
spaces.sort((a, b) => b.listeners - a.listeners); Array.prototype.sort
is stable, and a stable sort under a total comparator has a unique
result, realised here by insertion that keeps an earlier element in
front of later elements with an equal count. -/
def insertByListenersDesc (x : Space) : List Space → List Space
  | [] => [x]
  | y :: ys =>
      if y.listeners ≤ x.listeners then x :: y :: ys
      else y :: insertByListenersDesc x ys

/-- The source's spaces.sort((a, b) => b.listeners - a.listeners). -/
def sortByListenersDesc : List Space → List Space
  | [] => []
  | x :: xs => insertByListenersDesc x (sortByListenersDesc xs)

/-- The tail of findMostPopularSpace after discovery (lines 204-219):
error on an empty result, otherwise sort by listeners descending and
take the head. -/
def mostPopularOf (spaces : List Space) : Except String Space :=
  if spaces.length = 0 then Except.error "No Twitter Spaces found"
  else
    match sortByListenersDesc spaces with
    | [] => Except.error "No valid Twitter Spaces found"
    | s :: _ => Except.ok s

/-- The options findMostPopularSpace passes to discovery (lines 198-202):
the caller's options with mode and limit overridden. -/
def overrideOptions (options : DiscoverOptions) : DiscoverOptions :=
  { options with mode := some "top", limit := some 20 }

/-- findMostPopularSpace: discover with the overridden options, then
pick the most popular entry. -/
def findMostPopularSpace (options : DiscoverOptions)
    (cards : List SpaceCard) : Except String Space :=
  (discoverTwitterSpaces (overrideOptions options) cards).bind mostPopularOf

/-- The maximum listener count of a list of rooms (0 when empty). -/
def maxListeners : List Space → ℕ
  | [] => 0
  | s :: rest => max s.listeners (maxListeners rest)

/-- The first entry, in input order, attaining the maximum listener
count. -/
def firstMaxSpace (spaces : List Space) : Option Space :=
  spaces.find? (fun s => s.listeners == maxListeners spaces)

/-! ## Room join flow (joinTwitterSpace)

joinTwitterSpace normalizes the URL (x.com to twitter.com, /peek
stripped, lines 429-431), navigates, errors when the space is ended or
missing, then escalates through the click strategies; when no strategy
produces the audio signal it only logs a warning (lines 917-922) and
still returns the session object (lines 1046-1048).  The page is
abstracted into whether navigation succeeds, whether the space is
valid, and which click attempts produce the audio signal. -/

/-- joinTwitterSpace's URL normalization (lines 430-431). -/
def normalizeJoinUrl (spaceUrl : String) : String :=
  replaceFirst (replaceFirst spaceUrl "x.com" "twitter.com") "/peek" ""

/-- The log lines the join flow can emit about the click cascade. -/
inductive JoinLog where
  | noButtonWarn
  | clickedButton
deriving DecidableEq, Repr

/-- Abstraction of the page the join flow drives. -/
structure JoinPage where
  navOk : Bool
  validSpace : Bool
  approachSignals : List Bool
deriving DecidableEq, Repr

/-- The session object joinTwitterSpace returns (page handle elided). -/
structure ActiveSpace where
  spaceUrl : String
deriving DecidableEq, Repr

/-- joinTwitterSpace: throw on navigation failure or an invalid space;
the click-strategy cascade stops at the first attempt whose click makes
audio elements appear, and buttonFound stays false when no attempt
does; either way the function returns the session object, logging a
warning instead of throwing when no button was successfully clicked. -/
def joinTwitterSpace (pageModel : JoinPage) (spaceUrl : String) :
    Except String (ActiveSpace × List JoinLog) :=
  let normalizedUrl := normalizeJoinUrl spaceUrl
  if !pageModel.navOk then
    Except.error "Failed to join Twitter Space: navigation failed"
  else if !pageModel.validSpace then
    Except.error "Invalid Twitter Space: Space has ended or does not exist"
  else
    let buttonFound := pageModel.approachSignals.any (fun b => b)
    let logs :=
      if buttonFound then [JoinLog.clickedButton] else [JoinLog.noButtonWarn]
    Except.ok ({ spaceUrl := normalizedUrl }, logs)

end TwitterSpaceAgent

namespace TwitterSpaceAgent

theorem clampSample_eq_clampSpec (x : ℚ) : clampSample x = clampSpec x := by
  unfold clampSample clampSpec
  rcases lt_or_le x (-1) with h | h
  · rw [min_eq_right (by linarith), max_eq_left (le_of_lt h), if_pos h]
  · rcases lt_or_le 1 x with h2 | h2
    · rw [min_eq_left (le_of_lt h2), max_eq_right (by norm_num),
        if_neg (by linarith), if_pos h2]
    · rw [min_eq_right h2, max_eq_right h, if_neg (by linarith),
        if_neg (by linarith)]

theorem writeInt16LE_bytes_lt (v : ℤ) : ∀ b ∈ writeInt16LE v, b < 256 := by
  intro b hb
  have h0 : 0 ≤ v % 65536 := Int.emod_nonneg v (by norm_num)
  have h1 : v % 65536 < 65536 := Int.emod_lt_of_pos v (by norm_num)
  have h2 : (v % 65536).toNat < 65536 := by omega
  unfold writeInt16LE at hb
  simp only [List.mem_cons, List.mem_singleton, List.not_mem_nil, or_false] at hb
  rcases hb with rfl | rfl
  · exact Nat.mod_lt _ (by norm_num)
  · omega

/-- Claim C5: the float-to-int16 conversion equals floor(clamp(x, -1, 1) * 32767)
serialized little-endian (two bytes, both below 256), and on values of the form
k / 32767 with k in [-32768, 32767] the convert-and-scale-back round trip stays
within one least-significant bit (1 / 32767) of the original sample. -/
theorem c5_float_to_int16 :
    (∀ x : ℚ, floatToInt16 x = ⌊clampSpec x * 32767⌋) ∧
    (∀ x : ℚ, convertSample x = writeInt16LE ⌊clampSpec x * 32767⌋ ∧
      ∀ b ∈ convertSample x, b < 256) ∧
    (∀ k : ℤ, -32768 ≤ k → k ≤ 32767 →
      |((floatToInt16 ((k : ℚ) / 32767) : ℚ) / 32767) - (k : ℚ) / 32767| ≤
        1 / 32767) := by
  refine ⟨?_, ?_, ?_⟩
  · intro x
    unfold floatToInt16
    rw [clampSample_eq_clampSpec]
  · intro x
    constructor
    · unfold convertSample floatToInt16
      rw [clampSample_eq_clampSpec]
    · exact writeInt16LE_bytes_lt _
  · intro k hk1 hk2
    rcases eq_or_lt_of_le hk1 with heq | hlt
    · have hx : ((k : ℚ) / 32767) = (-32768 : ℚ) / 32767 := by
        rw [← heq]; norm_num
      have hclamp : clampSample ((k : ℚ) / 32767) = -1 := by
        rw [hx]
        unfold clampSample
        rw [min_eq_right (by norm_num), max_eq_left (by norm_num)]
      have hfloor : floatToInt16 ((k : ℚ) / 32767) = -32767 := by
        unfold floatToInt16
        rw [hclamp]
        norm_num
      rw [hfloor, hx]
      norm_num
      rw [abs_of_nonneg (by norm_num)]
    · have hk1' : (-32767 : ℤ) ≤ k := by omega
      have hxle : (k : ℚ) / 32767 ≤ 1 := by
        rw [div_le_one (by norm_num)]
        exact_mod_cast hk2
      have hxge : (-1 : ℚ) ≤ (k : ℚ) / 32767 := by
        rw [le_div_iff₀ (by norm_num : (0 : ℚ) < 32767)]
        have h5 : ((-32767 : ℤ) : ℚ) ≤ (k : ℚ) := by exact_mod_cast hk1'
        push_cast at h5
        linarith
      have hclamp : clampSample ((k : ℚ) / 32767) = (k : ℚ) / 32767 := by
        unfold clampSample
        rw [min_eq_right hxle, max_eq_right hxge]
      have hfloor : floatToInt16 ((k : ℚ) / 32767) = k := by
        unfold floatToInt16
        rw [hclamp, div_mul_cancel₀ _ (by norm_num : (32767 : ℚ) ≠ 0),
          Int.floor_intCast]
      rw [hfloor]
      norm_num

/-- Witness for C5: the round-trip bound instantiated at k = 5. -/
theorem c5_float_to_int16_witness :
    ((-32768 : ℤ) ≤ 5) ∧ ((5 : ℤ) ≤ 32767) ∧
    |((floatToInt16 ((5 : ℚ) / 32767) : ℚ) / 32767) - (5 : ℚ) / 32767| ≤
      1 / 32767 :=
  ⟨by norm_num, by norm_num,
    c5_float_to_int16.2.2 5 (by norm_num) (by norm_num)⟩

theorem length_onaudioprocess (audioBuffer : List (List ℚ)) (buffer : List ℚ) :
    (onaudioprocess audioBuffer buffer).length =
      if audioBufferLimit < audioBuffer.length + 1 then audioBuffer.length
      else audioBuffer.length + 1 := by
  unfold onaudioprocess
  by_cases h : audioBufferLimit < (audioBuffer ++ [buffer]).length
  · rw [if_pos h, List.length_tail]
    simp only [List.length_append, List.length_singleton] at h ⊢
    rw [if_pos h]
    omega
  · rw [if_neg h]
    simp only [List.length_append, List.length_singleton] at h ⊢
    rw [if_neg h]

/-- Claim C6: the in-page audio backlog is bounded by the fixed depth 100: a
single append keeps the length at most 100 whenever it was at most 100 before,
any production sequence starting from the empty backlog stays at most 100, and
an append at the bound drops the oldest entry instead of growing the backlog. -/
theorem c6_buffer_bounded :
    (∀ (audioBuffer : List (List ℚ)) (buffer : List ℚ),
      audioBuffer.length ≤ 100 →
      (onaudioprocess audioBuffer buffer).length ≤ 100) ∧
    (∀ buffers : List (List ℚ),
      (buffers.foldl onaudioprocess []).length ≤ 100) ∧
    (∀ (audioBuffer : List (List ℚ)) (buffer : List ℚ),
      audioBuffer.length = 100 →
      onaudioprocess audioBuffer buffer = audioBuffer.tail ++ [buffer]) := by
  have hstep : ∀ (audioBuffer : List (List ℚ)) (buffer : List ℚ),
      audioBuffer.length ≤ 100 →
      (onaudioprocess audioBuffer buffer).length ≤ 100 := by
    intro audioBuffer buffer h
    rw [length_onaudioprocess]
    by_cases hlt : audioBufferLimit < audioBuffer.length + 1
    · rw [if_pos hlt]; exact h
    · rw [if_neg hlt]
      unfold audioBufferLimit at hlt
      omega
  refine ⟨hstep, ?_, ?_⟩
  · intro buffers
    have : ∀ (bs : List (List ℚ)) (acc : List (List ℚ)), acc.length ≤ 100 →
        (bs.foldl onaudioprocess acc).length ≤ 100 := by
      intro bs
      induction bs with
      | nil => intro acc h; exact h
      | cons b bs ih =>
          intro acc h
          exact ih _ (hstep acc b h)
    exact this buffers [] (by simp)
  · intro audioBuffer buffer h
    unfold onaudioprocess
    rw [if_pos]
    · cases audioBuffer with
      | nil => simp at h
      | cons a rest => simp
    · simp only [List.length_append, List.length_singleton, h]
      unfold audioBufferLimit
      omega

/-- Witness for C6: the single-append bound applied to the empty backlog and to
a backlog already at the bound. -/
theorem c6_buffer_bounded_witness :
    (([] : List (List ℚ)).length ≤ 100) ∧
    (onaudioprocess [] [(1 : ℚ)]).length ≤ 100 ∧
    onaudioprocess (List.replicate 100 ([] : List ℚ)) [(1 : ℚ)] =
      (List.replicate 100 ([] : List ℚ)).tail ++ [[(1 : ℚ)]] :=
  ⟨by simp, c6_buffer_bounded.1 [] [(1 : ℚ)] (by simp),
    c6_buffer_bounded.2.2 (List.replicate 100 ([] : List ℚ)) [(1 : ℚ)]
      (by simp)⟩

theorem foldl_stepConn_inv (es : List ConnEvent) :
    ∀ s : ConnState,
      ((s.readyState = ReadyState.connecting ∧ s.sent = []) ∨
       (s.readyState = ReadyState.closed ∧ s.sent = []) ∨
       (s.readyState ≠ ReadyState.connecting ∧
         ∃ chunks : List (List ℕ), s.sent = WsMsg.metadata :: List.map WsMsg.audioData chunks)) →
      (((es.foldl stepConn s).readyState = ReadyState.connecting ∧
          (es.foldl stepConn s).sent = []) ∨
       ((es.foldl stepConn s).readyState = ReadyState.closed ∧
          (es.foldl stepConn s).sent = []) ∨
       ((es.foldl stepConn s).readyState ≠ ReadyState.connecting ∧
         ∃ chunks : List (List ℕ), (es.foldl stepConn s).sent =
           WsMsg.metadata :: List.map WsMsg.audioData chunks)) := by
  induction es with
  | nil => intro s h; simpa using h
  | cons e rest ih =>
      intro s h
      rw [List.foldl_cons]
      apply ih
      rcases h with ⟨h1, h2⟩ | ⟨h1, h2⟩ | ⟨h1, chunks, h2⟩
      · cases e with
        | openEvt =>
            right; right
            refine ⟨by simp [stepConn, h1, h2], [], by simp [stepConn, h1, h2]⟩
        | sendChunk c =>
            left
            constructor <;> simp [stepConn, h1, h2]
        | closeEvt code =>
            right; left
            constructor <;> simp [stepConn, h1, h2]
      · cases e with
        | openEvt =>
            right; left
            constructor <;> simp [stepConn, h1, h2]
        | sendChunk c =>
            right; left
            constructor <;> simp [stepConn, h1, h2]
        | closeEvt code =>
            right; left
            constructor <;> simp [stepConn, h1, h2]
      · cases e with
        | openEvt =>
            right; right
            refine ⟨by simp [stepConn, h1], chunks, by simp [stepConn, h1, h2]⟩
        | sendChunk c =>
            by_cases hrs : s.readyState = ReadyState.opened
            · right; right
              refine ⟨by simp [stepConn, hrs], chunks ++ [c], ?_⟩
              simp [stepConn, hrs, h2]
            · right; right
              refine ⟨by simp [stepConn, hrs]; exact h1, chunks,
                by simp [stepConn, hrs, h2]⟩
        | closeEvt code =>
            right; right
            refine ⟨by simp [stepConn], chunks, by simp [stepConn, h2]⟩

theorem foldl_sendChunks (chunks : List (List ℕ)) :
    ∀ s : ConnState, s.readyState = ReadyState.opened →
      (chunks.map ConnEvent.sendChunk).foldl stepConn s =
        { readyState := ReadyState.opened,
          sent := s.sent ++ chunks.map WsMsg.audioData } := by
  induction chunks with
  | nil =>
      intro s h
      rw [List.map_nil, List.foldl_nil, List.map_nil, List.append_nil, ← h]
  | cons c cs ih =>
      intro s h
      rw [List.map_cons, List.foldl_cons, ih _ (by simp [stepConn, h])]
      simp [stepConn, h]

theorem connMessages_openThenClose (chunks : List (List ℕ)) (code : ℕ) :
    connMessages (ConnOutcome.openThenClose chunks code) =
      WsMsg.metadata :: chunks.map WsMsg.audioData := by
  unfold connMessages connEvents runConn
  rw [List.foldl_cons,
    show stepConn ⟨ReadyState.connecting, []⟩ ConnEvent.openEvt =
      ⟨ReadyState.opened, [WsMsg.metadata]⟩ from rfl,
    List.foldl_append, foldl_sendChunks chunks _ rfl]
  simp [stepConn]

theorem connMessages_openAndStay (chunks : List (List ℕ)) :
    connMessages (ConnOutcome.openAndStay chunks) =
      WsMsg.metadata :: chunks.map WsMsg.audioData := by
  unfold connMessages connEvents runConn
  rw [List.foldl_cons,
    show stepConn ⟨ReadyState.connecting, []⟩ ConnEvent.openEvt =
      ⟨ReadyState.opened, [WsMsg.metadata]⟩ from rfl,
    foldl_sendChunks chunks _ rfl]
  rfl

theorem countMetadata_append (a b : List WsMsg) :
    countMetadata (a ++ b) = countMetadata a + countMetadata b := by
  induction a with
  | nil => simp [countMetadata]
  | cons m rest ih =>
      cases m with
      | metadata => simp [countMetadata, ih]; omega
      | audioData c => simp [countMetadata, ih]

theorem countMetadata_audioData (chunks : List (List ℕ)) :
    countMetadata (chunks.map WsMsg.audioData) = 0 := by
  induction chunks with
  | nil => rfl
  | cons c cs ih => simpa [countMetadata] using ih

/-- Claim C2: on every connection instance the metadata handshake is the first
message and the only handshake: whatever events the connection sees, its
message trace is either empty (the connection never opened, so no audio was
sent either) or consists of exactly one metadata handshake followed only by
audio payloads.  Furthermore a run in which two connections open and close
unexpectedly and a third connection opens and stays up sends the metadata
handshake exactly three times, once per successful open. -/
theorem c2_metadata_before_audio :
    (∀ es : List ConnEvent,
      ((runConn es).sent = [] ∨
        ∃ chunks : List (List ℕ), (runConn es).sent =
          WsMsg.metadata :: List.map WsMsg.audioData chunks) ∧
      countMetadata (runConn es).sent ≤ 1) ∧
    (∀ (c1 c2 c3 : List (List ℕ)) (code1 code2 : ℕ),
      code1 ≠ 1000 → code2 ≠ 1000 →
      countMetadata (sessionTrace
        [ConnOutcome.openThenClose c1 code1,
         ConnOutcome.openThenClose c2 code2,
         ConnOutcome.openAndStay c3]) = 3) := by
  constructor
  · intro es
    have h := foldl_stepConn_inv es ⟨ReadyState.connecting, []⟩
      (Or.inl ⟨rfl, rfl⟩)
    have hshape : (runConn es).sent = [] ∨
        ∃ chunks : List (List ℕ), (runConn es).sent =
          WsMsg.metadata :: List.map WsMsg.audioData chunks := by
      rcases h with ⟨_, h2⟩ | ⟨_, h2⟩ | ⟨_, chunks, h2⟩
      · exact Or.inl h2
      · exact Or.inl h2
      · exact Or.inr ⟨chunks, h2⟩
    refine ⟨hshape, ?_⟩
    rcases hshape with h2 | ⟨chunks, h2⟩
    · simp [h2, countMetadata]
    · simp [h2, countMetadata, countMetadata_audioData]
  · intro c1 c2 c3 code1 code2 h1 h2
    simp only [sessionTrace]
    rw [if_pos ⟨h1, by norm_num [maxRetries]⟩,
      if_pos ⟨h2, by norm_num [maxRetries]⟩,
      countMetadata_append, countMetadata_append,
      connMessages_openThenClose, connMessages_openThenClose,
      connMessages_openAndStay]
    simp [countMetadata, countMetadata_audioData]

/-- Witness for C2: the three-connection scenario with close code 1006 and
concrete audio chunks. -/
theorem c2_metadata_before_audio_witness :
    countMetadata (sessionTrace
      [ConnOutcome.openThenClose [[1]] 1006,
       ConnOutcome.openThenClose [] 1006,
       ConnOutcome.openAndStay [[2], [3]]]) = 3 :=
  c2_metadata_before_audio.2 [[1]] [] [[2], [3]] 1006 1006
    (by norm_num) (by norm_num)

/-- Claim C3: sendAudioChunk never throws: whatever the connection state and
whether the underlying socket send succeeds, it returns a boolean failure
indicator (false whenever the connection is missing or not open, true exactly
when the connection is open and the send succeeds), and the capture loop backs
up every produced chunk locally regardless of the relay state. -/
theorem c3_send_never_throws :
    (∀ (ws : Option ReadyState) (sendOk : Bool),
      sendAudioChunk ws sendOk =
        Except.ok (decide (ws = some ReadyState.opened) && sendOk)) ∧
    (∀ (ws : Option ReadyState) (sendOk : Bool) (chunks : List (List ℕ)),
      (captureLoop ws sendOk chunks).1 = chunks) := by
  constructor
  · intro ws sendOk
    cases ws with
    | none => rfl
    | some rs => cases rs <;> cases sendOk <;> rfl
  · intro ws sendOk chunks
    induction chunks with
    | nil => rfl
    | cons c cs ih => simp [captureLoop, ih]

/-- Claim C4 (code bug): in websocket-client.js the retry bound is never
enforced, because every call of connectToWebSocket resets the global
connectionRetries to 0 before any handler can compare it against MAX_RETRIES:
after any number of consecutive failures another reconnect is still scheduled
(attempts = failures + 1 with no cap, e.g. 8 attempts after 7 consecutive
failures, though the claim's bound of 5 would allow at most 6).  The
audio-capture.js transport variant does enforce its bound: its attempts never
exceed maxReconnectAttempts + 1 = 11. -/
theorem c4_reconnect_unbounded :
    (∀ failures : ℕ, connectToWebSocketAttempts failures = failures + 1) ∧
    connectToWebSocketAttempts 7 = 8 ∧
    (∀ reconnectAttempt failures : ℕ,
      acReconnectAttempts reconnectAttempt failures ≤
        (maxReconnectAttempts - reconnectAttempt) + 1) ∧
    (∀ failures : ℕ,
      acReconnectAttempts 0 failures ≤ maxReconnectAttempts + 1) := by
  have h1 : ∀ failures : ℕ,
      connectToWebSocketAttempts failures = failures + 1 := by
    intro failures
    induction failures with
    | zero => rfl
    | succ k ih => simp [connectToWebSocketAttempts, maxRetries, ih]; omega
  have h3 : ∀ (failures reconnectAttempt : ℕ),
      acReconnectAttempts reconnectAttempt failures ≤
        (maxReconnectAttempts - reconnectAttempt) + 1 := by
    intro failures
    induction failures with
    | zero => intro r; simp [acReconnectAttempts]
    | succ k ih =>
        intro r
        by_cases hr : r < maxReconnectAttempts
        · rw [acReconnectAttempts, if_pos hr]
          have := ih (r + 1)
          unfold maxReconnectAttempts at hr this ⊢
          omega
        · rw [acReconnectAttempts, if_neg hr]
          omega
  exact ⟨h1, h1 7, fun r k => h3 k r, fun k => by
    have := h3 k 0
    simpa using this⟩

/-- Claim C1 counterexample: with all four resources live and the stop-audio
step throwing, cleanup attempts only the first step; closing the websocket,
closing the browser and terminating the VM are all skipped, refuting the claim
that an exception in an earlier step does not prevent later steps from being
attempted. -/
theorem c1_cleanup_counterexample :
    cleanup ⟨true, true, true, true, false, false⟩ ⟨true, false, false, false⟩ =
      ([CleanupStep.stopAudio], true) ∧
    CleanupStep.closeWs ∉
      (cleanup ⟨true, true, true, true, false, false⟩
        ⟨true, false, false, false⟩).1 ∧
    CleanupStep.closeBrowser ∉
      (cleanup ⟨true, true, true, true, false, false⟩
        ⟨true, false, false, false⟩).1 ∧
    CleanupStep.terminateVm ∉
      (cleanup ⟨true, true, true, true, false, false⟩
        ⟨true, false, false, false⟩).1 := by
  decide

/-- Claim C1 (amended): cleanup attempts the applicable teardown steps in the
specified order but stops at the first step that throws: the attempted steps
are exactly the applicable prefix of the order up to and including the first
throwing step, the exception is caught and logged by cleanup itself (it never
propagates), and only when no attempted step throws are all four steps
attempted. -/
theorem c1_cleanup_prefix :
    ∀ (st : CleanupState) (f : CleanupFaults),
      cleanup st f =
        (attemptedUpToFault (stepApplicable st) (stepThrows f) cleanupOrder,
          faultReached (stepApplicable st) (stepThrows f) cleanupOrder) := by
  intro st f
  obtain ⟨a, w, b, v, k, t⟩ := st
  obtain ⟨f1, f2, f3, f4⟩ := f
  revert a w b v k t f1 f2 f3 f4
  decide

theorem length_insertByListenersDesc (x : Space) (t : List Space) :
    (insertByListenersDesc x t).length = t.length + 1 := by
  induction t with
  | nil => rfl
  | cons y ys ih =>
      by_cases h : y.listeners ≤ x.listeners
      · simp [insertByListenersDesc, h]
      · simp [insertByListenersDesc, h, ih]

theorem length_sortByListenersDesc (l : List Space) :
    (sortByListenersDesc l).length = l.length := by
  induction l with
  | nil => rfl
  | cons x xs ih =>
      simp [sortByListenersDesc, length_insertByListenersDesc, ih]

theorem head_sortByListenersDesc (l : List Space) :
    (sortByListenersDesc l).head? = firstMaxSpace l := by
  induction l with
  | nil => rfl
  | cons x xs ih =>
      rw [sortByListenersDesc]
      cases hs : sortByListenersDesc xs with
      | nil =>
          have hxs : xs = [] := by
            have hlen := length_sortByListenersDesc xs
            rw [hs] at hlen
            exact List.length_eq_zero.mp hlen.symm
          subst hxs
          simp [insertByListenersDesc, firstMaxSpace, maxListeners]
      | cons h t =>
          rw [hs] at ih
          have hfind :
              xs.find? (fun s => s.listeners == maxListeners xs) = some h := by
            simpa [firstMaxSpace] using ih.symm
          have hl : h.listeners = maxListeners xs := by
            have := List.find?_some hfind
            simpa using this
          by_cases hcmp : h.listeners ≤ x.listeners
          · have hmax : maxListeners (x :: xs) = x.listeners := by
              rw [maxListeners, ← hl]
              exact Nat.max_eq_left hcmp
            rw [insertByListenersDesc, if_pos hcmp]
            rw [firstMaxSpace, List.find?_cons_of_pos _ (by simp [hmax])]
            rfl
          · have hmax : maxListeners (x :: xs) = maxListeners xs := by
              rw [maxListeners, ← hl]
              exact Nat.max_eq_right (by omega)
            have hp : (x.listeners == maxListeners (x :: xs)) = false := by
              rw [hmax]
              exact beq_eq_false_iff_ne.mpr (by omega)
            rw [insertByListenersDesc, if_neg hcmp]
            rw [firstMaxSpace, List.find?_cons_of_neg _ (by simp [hp]),
              hmax, hfind]
            rfl

/-- Claim C7: on a non-empty discovery result, mostPopular returns the entry
with the maximum listener count, and among entries tying for the maximum it
returns the one first encountered in input order; on the three-entry scenario
with listener counts 120, 450, 80 it returns the 450-listener entry, and on an
empty result it fails with an error. -/
theorem c7_most_popular :
    (∀ spaces : List Space, spaces ≠ [] →
      ∃ s, mostPopularOf spaces = Except.ok s ∧
        s.listeners = maxListeners spaces ∧ firstMaxSpace spaces = some s) ∧
    mostPopularOf [] = Except.error "No Twitter Spaces found" ∧
    mostPopularOf
      [⟨"https://twitter.com/i/spaces/1a", "A", "hostA", 120⟩,
       ⟨"https://twitter.com/i/spaces/1b", "B", "hostB", 450⟩,
       ⟨"https://twitter.com/i/spaces/1c", "C", "hostC", 80⟩] =
      Except.ok ⟨"https://twitter.com/i/spaces/1b", "B", "hostB", 450⟩ := by
  refine ⟨?_, rfl, rfl⟩
  intro spaces hne
  cases hsort : sortByListenersDesc spaces with
  | nil =>
      exfalso
      have hlen := length_sortByListenersDesc spaces
      rw [hsort] at hlen
      exact hne (List.length_eq_zero.mp hlen.symm)
  | cons s rest =>
      refine ⟨s, ?_, ?_, ?_⟩
      · rw [mostPopularOf,
          if_neg (by simpa using fun hz => hne (List.length_eq_zero.mp hz)),
          hsort]
      · have hfm : firstMaxSpace spaces = some s := by
          rw [← head_sortByListenersDesc, hsort]
          rfl
        have := List.find?_some hfm
        simpa using this
      · rw [← head_sortByListenersDesc, hsort]
        rfl

/-- Witness for C7: the non-empty-result property applied to the three-entry
scenario list. -/
theorem c7_most_popular_witness :
    ([⟨"https://twitter.com/i/spaces/1a", "A", "hostA", 120⟩,
      ⟨"https://twitter.com/i/spaces/1b", "B", "hostB", 450⟩,
      ⟨"https://twitter.com/i/spaces/1c", "C", "hostC", 80⟩] :
        List Space) ≠ [] ∧
    ∃ s, mostPopularOf
        [⟨"https://twitter.com/i/spaces/1a", "A", "hostA", 120⟩,
         ⟨"https://twitter.com/i/spaces/1b", "B", "hostB", 450⟩,
         ⟨"https://twitter.com/i/spaces/1c", "C", "hostC", 80⟩] =
          Except.ok s ∧
      s.listeners = maxListeners
        [⟨"https://twitter.com/i/spaces/1a", "A", "hostA", 120⟩,
         ⟨"https://twitter.com/i/spaces/1b", "B", "hostB", 450⟩,
         ⟨"https://twitter.com/i/spaces/1c", "C", "hostC", 80⟩] ∧
      firstMaxSpace
        [⟨"https://twitter.com/i/spaces/1a", "A", "hostA", 120⟩,
         ⟨"https://twitter.com/i/spaces/1b", "B", "hostB", 450⟩,
         ⟨"https://twitter.com/i/spaces/1c", "C", "hostC", 80⟩] = some s :=
  ⟨by simp, c7_most_popular.1 _ (by simp)⟩

/-- Claim C8 counterexample: a discovered room URL on the alternate domain
with a trailing preview suffix still carries the /peek suffix after the
discovery site's normalization, refuting the claim that no preview suffix
remains at that site. -/
theorem c8_url_normalization_counterexample :
    normalizeDiscoveredUrl "https://x.com/i/spaces/1abc/peek" =
      "https://twitter.com/i/spaces/1abc/peek" ∧
    endsWithStr (normalizeDiscoveredUrl "https://x.com/i/spaces/1abc/peek")
      "/peek" = true := by
  constructor
  · decide
  · decide

theorem replaceFirstChars_ne_nil (pat repl : List Char) (s : List Char)
    (hs : s ≠ []) (hr : repl ≠ []) : replaceFirstChars pat repl s ≠ [] := by
  cases s with
  | nil => exact absurd rfl hs
  | cons c cs =>
      rw [replaceFirstChars]
      by_cases h : pat.isPrefixOf (c :: cs)
      · rw [if_pos h]
        simp [hr]
      · rw [if_neg h]
        simp

theorem normalizeDiscoveredUrl_ne_empty (u : String) (hu : u ≠ "") :
    normalizeDiscoveredUrl u ≠ "" := by
  unfold normalizeDiscoveredUrl
  by_cases h : strIncludes u "x.com/i/spaces/"
  · rw [if_pos h]
    unfold replaceFirst
    intro hc
    have hlist : replaceFirstChars "x.com/i/spaces/".toList
        "twitter.com/i/spaces/".toList u.toList = [] :=
      congrArg String.toList hc
    have hune : u.toList ≠ [] := by
      intro hz
      apply hu
      cases u with
      | mk data => simpa [String.toList, String.data] using congrArg String.mk hz
    exact replaceFirstChars_ne_nil _ _ _ hune (by decide) hlist
  · rw [if_neg h]
    exact hu

/-- Claim C8 (amended): every room in a discovery result has a non-empty URL,
and the discovery site rewrites the alternate x.com domain to the primary
domain but leaves a trailing /peek preview suffix in place; joinRoom's
normalization both rewrites the alternate domain and strips the preview
suffix, producing the canonical URL. -/
theorem c8_url_normalization_amended :
    (∀ (options : DiscoverOptions) (cards : List SpaceCard)
        (spaces : List Space),
      discoverTwitterSpaces options cards = Except.ok spaces →
      ∀ s ∈ spaces, s.url ≠ "") ∧
    normalizeDiscoveredUrl "https://x.com/i/spaces/1abc" =
      "https://twitter.com/i/spaces/1abc" ∧
    normalizeJoinUrl "https://x.com/i/spaces/1abc/peek" =
      "https://twitter.com/i/spaces/1abc" := by
  refine ⟨?_, by decide, by decide⟩
  intro options cards spaces hok s hmem
  unfold discoverTwitterSpaces at hok
  split at hok
  · exact absurd hok (by simp)
  · split at hok
    · exact absurd hok (by simp)
    · have hspaces := Except.ok.inj hok
      rw [← hspaces] at hmem
      unfold validSpacesOf at hmem
      obtain ⟨t, htmem, rfl⟩ := List.mem_map.mp hmem
      have hblank : isBlankStr t.url = false := by
        have := (List.mem_filter.mp htmem).2
        simpa using this
      have hne : t.url ≠ "" := by
        intro hz
        rw [hz] at hblank
        exact absurd hblank (by decide)
      exact normalizeDiscoveredUrl_ne_empty t.url hne

/-- Witness for C8 (amended): the non-empty-URL property applied to a
one-card listing whose room URL is on the alternate domain with a preview
suffix. -/
theorem c8_url_normalization_amended_witness :
    discoverTwitterSpaces ⟨none, none, none, none⟩
        [⟨some "https://x.com/i/spaces/1abc/peek", "T", "H", 7⟩] =
      Except.ok
        [⟨"https://twitter.com/i/spaces/1abc/peek", "T", "H", 7⟩] ∧
    (⟨"https://twitter.com/i/spaces/1abc/peek", "T", "H", 7⟩ : Space).url ≠
      "" :=
  ⟨rfl,
    c8_url_normalization_amended.1 ⟨none, none, none, none⟩
      [⟨some "https://x.com/i/spaces/1abc/peek", "T", "H", 7⟩]
      [⟨"https://twitter.com/i/spaces/1abc/peek", "T", "H", 7⟩]
      rfl _ (by simp)⟩

/-- Claim C9: when navigation succeeds and the space is valid but none of the
escalating click strategies produces a detectable audio signal, joinRoom does
not throw: it returns the session object with the normalized URL and logs the
soft-failure warning. -/
theorem c9_join_soft_failure :
    ∀ (pageModel : JoinPage) (spaceUrl : String),
      pageModel.navOk = true → pageModel.validSpace = true →
      pageModel.approachSignals.any (fun b => b) = false →
      joinTwitterSpace pageModel spaceUrl =
        Except.ok ({ spaceUrl := normalizeJoinUrl spaceUrl },
          [JoinLog.noButtonWarn]) := by
  intro pageModel spaceUrl h1 h2 h3
  unfold joinTwitterSpace
  rw [h1, h2]
  simp [h3]

/-- Witness for C9: a page on which all five strategies fail to raise the
audio signal. -/
theorem c9_join_soft_failure_witness :
    joinTwitterSpace ⟨true, true, [false, false, false, false, false]⟩
        "https://x.com/i/spaces/1abc/peek" =
      Except.ok
        ({ spaceUrl :=
            normalizeJoinUrl "https://x.com/i/spaces/1abc/peek" },
          [JoinLog.noButtonWarn]) :=
  c9_join_soft_failure ⟨true, true, [false, false, false, false, false]⟩
    "https://x.com/i/spaces/1abc/peek" rfl rfl rfl

theorem discoverTwitterSpaces_take (options : DiscoverOptions)
    (cards : List SpaceCard) (h : options.limit = some 20) :
    discoverTwitterSpaces options cards =
      discoverTwitterSpaces options (cards.take 20) := by
  have hempty : (cards.take 20).isEmpty = cards.isEmpty := by
    cases cards with
    | nil => rfl
    | cons c cs => rfl
  unfold discoverTwitterSpaces validSpacesOf
  rw [h, hempty]
  simp only [Option.getD_some, List.take_take, Nat.min_self]

/-- Claim C10: findMostPopularSpace overrides the caller-supplied mode and
limit before delegating to discovery (mode top, limit 20 always); its result
does not depend on the mode or limit the caller passed in, and it selects only
among at most the first 20 discovered cards. -/
theorem c10_most_popular_overrides :
    (∀ options : DiscoverOptions,
      (overrideOptions options).mode = some "top" ∧
      (overrideOptions options).limit = some 20) ∧
    (∀ (options : DiscoverOptions) (m : Option String) (n : Option ℕ)
        (cards : List SpaceCard),
      findMostPopularSpace { options with mode := m, limit := n } cards =
        findMostPopularSpace options cards) ∧
    (∀ (options : DiscoverOptions) (cards : List SpaceCard),
      findMostPopularSpace options cards =
        findMostPopularSpace options (cards.take 20)) := by
  refine ⟨fun options => ⟨rfl, rfl⟩, fun options m n cards => rfl, ?_⟩
  intro options cards
  unfold findMostPopularSpace
  rw [discoverTwitterSpaces_take (overrideOptions options) cards rfl]

end TwitterSpaceAgent
